import Mathlib

/-!
# Verification of the Flash inventory-projection core (src/app.py)

A shallow embedding of the per-part balance-projection algorithm
(`process_data`), the last-Monday snapshot-date computation
(`get_last_monday_of_month`) and the monthly snapshot summarizer of
`src/app.py`, together with theorems settling the frozen claims about them.

Numeric cell values are modelled as exact rationals (ℚ); a spreadsheet cell
that may be absent because its whole column is missing is an `Option ℚ`
(`none` = the column is absent, so that a Python `row.get(c, d)` returns the
default `d` and a `row[c]` raises `KeyError`).  Calendar dates are modelled
by their proleptic-Gregorian ordinal (day 1 = January 1 of year 1, a
Monday), exactly as CPython `datetime.toordinal`.
-/

/-! ## Calendar model: `get_last_monday_of_month` (src/app.py lines 15-23) -/

/-- Proleptic-Gregorian leap-year test, as in CPython `datetime`. -/
def isLeap (y : ℕ) : Bool :=
  (y % 4 == 0 && y % 100 != 0) || (y % 400 == 0)

/-- Number of days of month `m` (1-12) of year `y`. -/
def daysInMonth (y m : ℕ) : ℕ :=
  if m = 2 then (if isLeap y then 29 else 28)
  else if m = 4 ∨ m = 6 ∨ m = 9 ∨ m = 11 then 30
  else 31

/-- Number of days strictly before January 1 of year `y` (CPython
`_days_before_year`). -/
def daysBeforeYear (y : ℕ) : ℕ :=
  365 * (y - 1) + (y - 1) / 4 - (y - 1) / 100 + (y - 1) / 400

/-- Number of days of year `y` strictly before the first day of month `m`
(CPython `_days_before_month`). -/
def daysBeforeMonth (y m : ℕ) : ℕ :=
  ((List.range' 1 (m - 1)).map (daysInMonth y)).sum

/-- `datetime(y, m, d).toordinal()`: day number with day 1 = 0001-01-01. -/
def toOrdinal (y m d : ℕ) : ℕ :=
  daysBeforeYear y + daysBeforeMonth y m + d

/-- Day-of-week of an ordinal, Monday = 0 (ordinal 1 is a Monday),
as `datetime.weekday()`. -/
def weekdayOf (o : ℕ) : ℕ := (o - 1) % 7

/-- The ordinal of the last calendar day of month `m` of year `y`, computed
exactly as lines 17-20 of src/app.py: the day before the first day of the
following month. -/
def lastDayOrdinal (y m : ℕ) : ℕ :=
  if m = 12 then toOrdinal (y + 1) 1 1 - 1 else toOrdinal y (m + 1) 1 - 1

/-- `get_last_monday_of_month` (src/app.py lines 15-23), returning the
ordinal of the resulting date: walk back from the last day of the month by
its `weekday()` offset. -/
def get_last_monday_of_month (y m : ℕ) : ℕ :=
  lastDayOrdinal y m - weekdayOf (lastDayOrdinal y m)

/-! ## Row model and the projection engine (src/app.py lines 26-74)

A `Row` holds the cells of one spreadsheet row that the algorithm reads.
Each field is `none` when the corresponding column is absent from the
sheet; when the column is present, `df.fillna(0)` (line 29) has already
replaced blank cells by `0`, so a present cell is always a number. -/

structure Row where
  MOQ : Option ℚ := none
  n : Option ℚ := none
  Onhand : Option ℚ := none
  porDemand : Option ℚ := none
  poVsPorAdjustment : Option ℚ := none
  backlog : Option ℚ := none
  buildAndHold : Option ℚ := none
  preBuild : Option ℚ := none
  testReqt : Option ℚ := none
  strategicBuffer : Option ℚ := none
  dcr : Option ℚ := none
  others : Option ℚ := none
  confirmedOrders : Option ℚ := none
  unconfirmedOrders : Option ℚ := none
deriving DecidableEq, Inhabited

/-- The derived fields the engine stores on a processed row: the final
value of the `SupplierHP(UnconfirmedOrders)` cell, `Calculated_Balance`,
and `WOS_Check` (`none` when line 73 never ran for the row). -/
structure RowOut where
  unconf : ℚ
  Calculated_Balance : ℚ
  WOS_Check : Option ℚ
deriving DecidableEq, Inhabited

/-- Python `int(...)` on an exact numeric value: truncation toward zero. -/
def pyInt (q : ℚ) : ℤ := if 0 ≤ q then ⌊q⌋ else ⌈q⌉

/-- Line 51: `moq = max(float(row.get('MOQ', 1)), 1)`. -/
def effMOQ (r : Row) : ℚ := max (r.MOQ.getD 1) 1

/-- Line 52: `n_weeks = int(row.get('n', 5))`. -/
def nWeeks (r : Row) : ℤ := pyInt (r.n.getD 5)

/-- The nine `deductions` columns of lines 38-39, in order. -/
def deductionCells (r : Row) : List (Option ℚ) :=
  [r.porDemand, r.poVsPorAdjustment, r.backlog, r.buildAndHold,
   r.preBuild, r.testReqt, r.strategicBuffer, r.dcr, r.others]

/-- The six `forward_cols` columns of lines 40-41, in order (a subset of
the deduction columns). -/
def forwardCells (r : Row) : List (Option ℚ) :=
  [r.porDemand, r.poVsPorAdjustment, r.backlog, r.buildAndHold,
   r.preBuild, r.testReqt]

/-- Line 54: `sum(float(row.get(c, 0)) for c in deductions if c in row)` —
an absent column contributes 0. -/
def deductionsSum (r : Row) : ℚ := ((deductionCells r).map (fun v => v.getD 0)).sum

/-- The contribution of one row to a forward-window sum:
`sum(float(records[j].get(c, 0)) for c in forward_cols if c in records[j])`. -/
def forwardSum (r : Row) : ℚ := ((forwardCells r).map (fun v => v.getD 0)).sum

/-- Lines 58-59 (and identically lines 71-72): the forward-window demand
sum over rows `i+1 … i+n_weeks` (`range(i + 1, i + 1 + n_weeks)`, empty
when `n_weeks ≤ 0`). -/
def targetSum (records : List Row) (i : ℕ) (nW : ℤ) : ℚ :=
  ((List.range' (i + 1) nW.toNat).map (fun j => forwardSum (records.getD j default))).sum

/-- Lines 50-73: the body of the per-row loop for index `i`, given the
starting balance `start_val`.  Returns `Except.error` exactly where the
Python raises a `KeyError` (a `row[...]` access to an absent column); the
raised exception aborts the whole `process_data` run (lines 114-116). -/
def rowCompute (records : List Row) (i : ℕ) (start_val : ℚ) : Except String RowOut :=
  let row := records.getD i default
  let moq := effMOQ row
  let nW := nWeeks row
  let current_deductions := deductionsSum row
  match row.confirmedOrders with
  | none => .error "KeyError: SupplierHP(ConfirmedOrders)"
  | some c_val =>
    if (i : ℤ) + nW < (records.length : ℤ) then
      let target_sum := targetSum records i nW
      let base_bal := start_val + c_val - current_deductions
      let gap := target_sum - base_bal
      let k : ℤ := ⌊gap / moq⌋ + 1
      let unconf := (k : ℚ) * moq
      let this_week_balance := start_val + (unconf + c_val) - current_deductions
      let future_sum := targetSum records i nW
      let wos := if 0 < future_sum then this_week_balance / future_sum * (nW : ℚ) else 999
      .ok ⟨unconf, this_week_balance, some wos⟩
    else
      match row.unconfirmedOrders with
      | none => .error "KeyError: SupplierHP(UnconfirmedOrders)"
      | some u =>
        .ok ⟨u, start_val + (u + c_val) - current_deductions, none⟩

/-- Lines 49-74: the loop `for i in range(num_rows)` over the records of
one part, threading `prev_balance`; `rem` is the number of iterations
left, so the loop is entered with `rem = records.length`.  Row 0 takes its
starting balance from `row.get('Onhand', 0)`, each later row from the
calculated balance of the row before it (line 53). -/
def processAux (records : List Row) (i : ℕ) (prev : ℚ) : ℕ → Except String (List RowOut)
  | 0 => .ok []
  | rem + 1 =>
    let row := records.getD i default
    let start_val := if i = 0 then row.Onhand.getD 0 else prev
    match rowCompute records i start_val with
    | .error e => .error e
    | .ok out =>
      match processAux records (i + 1) out.Calculated_Balance rem with
      | .error e => .error e
      | .ok rest => .ok (out :: rest)

/-- The projection of one ordered part timeline (the body of the
`for part, group in df.groupby('Part Number')` loop, lines 44-74). -/
def process_part (records : List Row) : Except String (List RowOut) :=
  processAux records 0 0 records.length

/-- All part timelines in groupby order; the first raised exception aborts
the whole run. -/
def process_parts : List (List Row) → Except String (List (List RowOut))
  | [] => .ok []
  | g :: gs =>
    match process_part g with
    | .error e => .error e
    | .ok outs =>
      match process_parts gs with
      | .error e => .error e
      | .ok rest => .ok (outs :: rest)

/-- `process_data` projected onto its core: on any exception the
`except` handler (lines 114-116) discards everything and returns `None`. -/
def process_data (groups : List (List Row)) : Option (List (List RowOut)) :=
  (process_parts groups).toOption

/-! ## Monthly snapshot summarizer (src/app.py lines 91-104)

A processed part timeline is abstracted to its list of
(date ordinal, `Calculated_Balance`) pairs, in timeline order. -/

/-- One record of the `Summary Report` sheet (lines 97-104), without the
redundant `Month` label. -/
structure SummaryRow where
  partNumber : String
  snapshotDate : ℕ
  balance : ℚ
  unitPrice : ℚ
  amount : ℚ
deriving DecidableEq, Inhabited

/-- Lines 95-96: `match = group[group['Date_Only'] == t_date]` and
`bal = match['Calculated_Balance'].iloc[0] if not match.empty else 0`. -/
def snapshotBalance (group : List (ℕ × ℚ)) (t : ℕ) : ℚ :=
  match group.filter (fun r => r.1 == t) with
  | [] => 0
  | r :: _ => r.2

/-- Lines 93-104: the record emitted for one part and one target date;
`priceLookup` is `price_lookup.get(part, 0)` (line 93) with its default
of 0 already built in. -/
def mkSummaryRow (priceLookup : String → ℚ) (part : String) (group : List (ℕ × ℚ))
    (t : ℕ) : SummaryRow :=
  let bal := snapshotBalance group t
  ⟨part, t, bal, priceLookup part, bal * priceLookup part⟩

/-- Lines 91-105: one record per (part, target date), parts in groupby
order, target dates in their list order. -/
def summaryReport (priceLookup : String → ℚ) (parts : List (String × List (ℕ × ℚ)))
    (targetDates : List ℕ) : List SummaryRow :=
  parts.flatMap (fun pg => targetDates.map (fun t => mkSummaryRow priceLookup pg.1 pg.2 t))

/-! ## Concrete instances used by counterexamples and witnesses -/

/-- Counterexample input for the replenishment-sizing claim: one part, two
rows; row 0 has MOQ 10, horizon 1, on-hand 0, confirmed 0 and an exact
forward demand of 10 in its window, so its gap is exactly one MOQ lot. -/
def c1cex : List Row :=
  [{ MOQ := some 10, n := some 1, Onhand := some 0, confirmedOrders := some 0 },
   { porDemand := some 10, confirmedOrders := some 0, unconfirmedOrders := some 0 }]

/-- Witness input for the amended replenishment-sizing claim: MOQ 4,
horizon 1, forward demand 5, so the gap 5 is not a multiple of the MOQ. -/
def c1wit : List Row :=
  [{ MOQ := some 4, n := some 1, confirmedOrders := some 0 },
   { porDemand := some 5, confirmedOrders := some 0, unconfirmedOrders := some 0 }]

/-- Witness input for balance continuity: two rows with default horizon 5
(no full forward window), on-hand 7. -/
def c2wit : List Row :=
  [{ Onhand := some 7, confirmedOrders := some 0, unconfirmedOrders := some 0 },
   { confirmedOrders := some 0, unconfirmedOrders := some 0 }]

/-- The projected output rows for `c2wit`. -/
def c2witOuts : List RowOut := [⟨0, 7, none⟩, ⟨0, 7, none⟩]

/-- Witness input for the coverage sentinel: row 0 has a full forward
window (horizon 1) whose demand sum is 0. -/
def c5wit : List Row :=
  [{ MOQ := some 1, n := some 1, Onhand := some 2, confirmedOrders := some 0 },
   { confirmedOrders := some 0, unconfirmedOrders := some 0 }]

/-- Witness input for the frame-effect claim: a single row (horizon 5, so
no full forward window) whose unconfirmed-orders cell holds 4. -/
def c7wit : List Row :=
  [{ Onhand := some 9, confirmedOrders := some 0, unconfirmedOrders := some 4 }]

/-- Input for the negative-order claim: on-hand 100, MOQ 10, horizon 1 and
no forward demand, giving gap −100 and k = −9. -/
def c8records : List Row :=
  [{ MOQ := some 10, n := some 1, Onhand := some 100, confirmedOrders := some 0 },
   { confirmedOrders := some 0, unconfirmedOrders := some 0 }]

/-- Witness input for the missing-column abort claim: one part with a
single row that has no unconfirmed-orders cell and no full forward
window. -/
def c10wit : List (List Row) := [[{ confirmedOrders := some 0 }]]

/-- Witness input for the snapshot-fallback claim: one part whose timeline
has a row dated on ordinal 5 only. -/
def c6parts : List (String × List (ℕ × ℚ)) := [("A", [(5, 7)])]

/-! ## Calendar lemmas -/

lemma daysBeforeMonth_succ (y m : ℕ) (hm : 1 ≤ m) :
    daysBeforeMonth y (m + 1) = daysBeforeMonth y m + daysInMonth y m := by
  unfold daysBeforeMonth
  obtain ⟨m', rfl⟩ := Nat.exists_eq_add_of_le hm
  have h1 : 1 + m' + 1 - 1 = m' + 1 := by omega
  have h2 : 1 + m' - 1 = m' := by omega
  rw [h1, h2, List.range'_concat, List.map_append, List.sum_append]
  simp

lemma isLeap_iff (y : ℕ) : isLeap y = true ↔ ((y % 4 = 0 ∧ y % 100 ≠ 0) ∨ y % 400 = 0) := by
  simp [isLeap]

lemma daysBeforeMonth_13 (y : ℕ) :
    daysBeforeMonth y 13 = if isLeap y then 366 else 365 := by
  have hr : List.range' 1 12 = [1, 2, 3, 4, 5, 6, 7, 8, 9, 10, 11, 12] := rfl
  unfold daysBeforeMonth
  rw [show (13 - 1 : ℕ) = 12 from rfl, hr]
  cases h : isLeap y <;> norm_num [daysInMonth, h]

lemma daysBeforeYear_succ (y : ℕ) (hy : 1 ≤ y) :
    daysBeforeYear (y + 1) = daysBeforeYear y + (if isLeap y then 366 else 365) := by
  have s4 : y / 4 = (y - 1) / 4 + (if y % 4 = 0 then 1 else 0) := by
    split <;> omega
  have s100 : y / 100 = (y - 1) / 100 + (if y % 100 = 0 then 1 else 0) := by
    split <;> omega
  have s400 : y / 400 = (y - 1) / 400 + (if y % 400 = 0 then 1 else 0) := by
    split <;> omega
  have hq : (y - 1) / 100 ≤ (y - 1) / 4 := Nat.div_le_div_left (by norm_num) (by norm_num)
  have h100_4 : y % 100 = 0 → y % 4 = 0 := by omega
  have h400_100 : y % 400 = 0 → y % 100 = 0 := by omega
  by_cases h : isLeap y = true
  · rw [if_pos h]
    rw [isLeap_iff] at h
    unfold daysBeforeYear
    rw [show y + 1 - 1 = y from rfl, s4, s100, s400]
    rcases h with ⟨h4, h100⟩ | h400
    · rw [if_pos h4, if_neg h100, if_neg (fun hc => h100 (h400_100 hc))]
      omega
    · rw [if_pos h400, if_pos (h400_100 h400), if_pos (h100_4 (h400_100 h400))]
      omega
  · rw [if_neg h]
    rw [isLeap_iff] at h
    push_neg at h
    unfold daysBeforeYear
    rw [show y + 1 - 1 = y from rfl, s4, s100, s400]
    obtain ⟨h1, h400⟩ := h
    by_cases h4 : y % 4 = 0
    · have h100 : y % 100 = 0 := h1 h4
      rw [if_pos h4, if_pos h100, if_neg h400]
      omega
    · rw [if_neg h4, if_neg (fun hc => h4 (h100_4 hc)), if_neg h400]
      omega

lemma daysInMonth_ge (y m : ℕ) : 28 ≤ daysInMonth y m := by
  unfold daysInMonth
  split
  · split <;> omega
  · split <;> omega

lemma lastDayOrdinal_eq (y m : ℕ) (hy : 1 ≤ y) (hm1 : 1 ≤ m) (hm2 : m ≤ 12) :
    lastDayOrdinal y m = toOrdinal y m (daysInMonth y m) := by
  by_cases h12 : m = 12
  · subst h12
    have h13 : daysBeforeMonth y 13 = daysBeforeMonth y 12 + daysInMonth y 12 :=
      daysBeforeMonth_succ y 12 (by omega)
    have h366 := daysBeforeMonth_13 y
    have hys := daysBeforeYear_succ y hy
    have hb1 : daysBeforeMonth (y + 1) 1 = 0 := by simp [daysBeforeMonth]
    unfold lastDayOrdinal toOrdinal
    rw [if_pos rfl]
    cases h : isLeap y <;> simp only [h, Bool.false_eq_true, if_true, if_false,
      ite_true, ite_false] at hys h366 <;> omega
  · unfold lastDayOrdinal toOrdinal
    have hstep := daysBeforeMonth_succ y m hm1
    rw [if_neg h12]
    omega

/-- C3: for every valid (year, month), the snapshot date computed by
`get_last_monday_of_month` is a Monday, lies within the given month (its
ordinal is between the ordinals of the first and last day of the month,
the latter being exactly `toOrdinal y m (daysInMonth y m)`), is within 6
days of the last calendar day of the month, and equals that last day
whenever the last day is itself a Monday. -/
theorem claim_C3 (y m : ℕ) (hy : 1 ≤ y) (hm1 : 1 ≤ m) (hm2 : m ≤ 12) :
    weekdayOf (get_last_monday_of_month y m) = 0 ∧
    toOrdinal y m 1 ≤ get_last_monday_of_month y m ∧
    get_last_monday_of_month y m ≤ lastDayOrdinal y m ∧
    lastDayOrdinal y m = toOrdinal y m (daysInMonth y m) ∧
    lastDayOrdinal y m - get_last_monday_of_month y m ≤ 6 ∧
    (weekdayOf (lastDayOrdinal y m) = 0 → get_last_monday_of_month y m = lastDayOrdinal y m) := by
  have hL := lastDayOrdinal_eq y m hy hm1 hm2
  have hdim := daysInMonth_ge y m
  unfold get_last_monday_of_month weekdayOf
  rw [hL]
  unfold toOrdinal
  omega

lemma processAux_ok_cons (records : List Row) (i : ℕ) (prev : ℚ) (rem : ℕ)
    (outs : List RowOut) (h : processAux records i prev (rem + 1) = .ok outs) :
    ∃ out rest,
      rowCompute records i (if i = 0 then (records.getD i default).Onhand.getD 0 else prev)
        = .ok out ∧
      processAux records (i + 1) out.Calculated_Balance rem = .ok rest ∧
      outs = out :: rest := by
  unfold processAux at h
  split at h
  next hi =>
    rw [if_pos hi]
    dsimp only at h
    split at h
    next e heq => simp at h
    next out heq =>
      split at h
      next e heq2 => simp at h
      next rest heq2 =>
        refine ⟨out, rest, heq, heq2, ?_⟩
        injection h with h2
        exact h2.symm
  next hi =>
    rw [if_neg hi]
    dsimp only at h
    split at h
    next e heq => simp at h
    next out heq =>
      split at h
      next e heq2 => simp at h
      next rest heq2 =>
        refine ⟨out, rest, heq, heq2, ?_⟩
        injection h with h2
        exact h2.symm

lemma processAux_ok_length (records : List Row) :
    ∀ (rem i : ℕ) (prev : ℚ) (outs : List RowOut),
      processAux records i prev rem = .ok outs → outs.length = rem := by
  intro rem
  induction rem with
  | zero =>
    intro i prev outs h
    unfold processAux at h
    injection h with h2
    rw [← h2]
    rfl
  | succ r ih =>
    intro i prev outs h
    obtain ⟨out, rest, _, h2, h3⟩ := processAux_ok_cons records i prev r outs h
    subst h3
    simp [ih (i + 1) out.Calculated_Balance rest h2]

lemma processAux_first (records : List Row) (prev : ℚ) (rem : ℕ) (outs : List RowOut)
    (h : processAux records 0 prev rem = .ok outs) (h0 : 0 < outs.length) :
    rowCompute records 0 ((records.getD 0 default).Onhand.getD 0) = .ok (outs.get ⟨0, h0⟩) := by
  cases rem with
  | zero =>
    unfold processAux at h
    injection h with h2
    rw [← h2] at h0
    simp at h0
  | succ r =>
    obtain ⟨out, rest, h1, _, h3⟩ := processAux_ok_cons records 0 prev r outs h
    subst h3
    simpa using h1

lemma processAux_chain (records : List Row) :
    ∀ (j rem i : ℕ) (prev : ℚ) (outs : List RowOut),
      processAux records i prev rem = .ok outs → ∀ hj : j + 1 < outs.length,
        rowCompute records (i + j + 1)
            ((outs.get ⟨j, Nat.lt_of_succ_lt hj⟩).Calculated_Balance)
          = .ok (outs.get ⟨j + 1, hj⟩) := by
  intro j
  induction j with
  | zero =>
    intro rem i prev outs h hj
    have hlen := processAux_ok_length records rem i prev outs h
    match rem, hlen with
    | r + 1, _ =>
      obtain ⟨out, rest, h1, h2, h3⟩ := processAux_ok_cons records i prev r outs h
      subst h3
      have hr : 0 < rest.length := by simpa using hj
      match r, processAux_ok_length records r (i + 1) out.Calculated_Balance rest h2 with
      | r' + 1, _ =>
        obtain ⟨out2, rest2, h4, h5, h6⟩ :=
          processAux_ok_cons records (i + 1) out.Calculated_Balance r' rest h2
        subst h6
        have hi1 : ¬(i + 1 = 0) := by omega
        rw [if_neg hi1] at h4
        simpa using h4
  | succ j' ih =>
    intro rem i prev outs h hj
    have hlen := processAux_ok_length records rem i prev outs h
    match rem, hlen with
    | r + 1, _ =>
      obtain ⟨out, rest, h1, h2, h3⟩ := processAux_ok_cons records i prev r outs h
      subst h3
      have hj' : j' + 1 < rest.length := by simpa using hj
      have := ih r (i + 1) out.Calculated_Balance rest h2 hj'
      have harith : i + 1 + j' + 1 = i + (j' + 1) + 1 := by omega
      rw [harith] at this
      simpa using this

lemma processAux_get_sv (records : List Row) :
    ∀ (j rem i : ℕ) (prev : ℚ) (outs : List RowOut),
      processAux records i prev rem = .ok outs → ∀ hj : j < outs.length,
        ∃ sv, rowCompute records (i + j) sv = .ok (outs.get ⟨j, hj⟩) := by
  intro j
  induction j with
  | zero =>
    intro rem i prev outs h hj
    have hlen := processAux_ok_length records rem i prev outs h
    match rem, hlen with
    | r + 1, _ =>
      obtain ⟨out, rest, h1, h2, h3⟩ := processAux_ok_cons records i prev r outs h
      subst h3
      exact ⟨_, by simpa using h1⟩
  | succ j' ih =>
    intro rem i prev outs h hj
    have hlen := processAux_ok_length records rem i prev outs h
    match rem, hlen with
    | r + 1, _ =>
      obtain ⟨out, rest, h1, h2, h3⟩ := processAux_ok_cons records i prev r outs h
      subst h3
      have hj' : j' < rest.length := by simpa using hj
      obtain ⟨sv, hsv⟩ := ih r (i + 1) out.Calculated_Balance rest h2 hj'
      have harith : i + 1 + j' = i + (j' + 1) := by omega
      rw [harith] at hsv
      exact ⟨sv, by simpa using hsv⟩

lemma rowCompute_ok_confirmed (records : List Row) (i : ℕ) (sv : ℚ) (out : RowOut)
    (h : rowCompute records i sv = .ok out) :
    ∃ c, (records.getD i default).confirmedOrders = some c := by
  unfold rowCompute at h
  dsimp only at h
  split at h
  · simp at h
  next c heq => exact ⟨c, heq⟩

lemma rowCompute_ok_window (records : List Row) (i : ℕ) (sv : ℚ) (out : RowOut) (c : ℚ)
    (hc : (records.getD i default).confirmedOrders = some c)
    (hw : (i : ℤ) + nWeeks (records.getD i default) < (records.length : ℤ))
    (h : rowCompute records i sv = .ok out) :
    out.unconf =
      ((⌊(targetSum records i (nWeeks (records.getD i default))
            - (sv + c - deductionsSum (records.getD i default)))
          / effMOQ (records.getD i default)⌋ + 1 : ℤ) : ℚ)
        * effMOQ (records.getD i default) ∧
    out.Calculated_Balance =
      sv + (out.unconf + c) - deductionsSum (records.getD i default) ∧
    out.WOS_Check =
      some (if 0 < targetSum records i (nWeeks (records.getD i default)) then
        out.Calculated_Balance / targetSum records i (nWeeks (records.getD i default))
          * ((nWeeks (records.getD i default) : ℤ) : ℚ)
      else 999) := by
  unfold rowCompute at h
  dsimp only at h
  rw [hc] at h
  dsimp only at h
  rw [if_pos hw] at h
  injection h with h2
  subst h2
  exact ⟨rfl, rfl, rfl⟩

lemma rowCompute_ok_nonwindow (records : List Row) (i : ℕ) (sv : ℚ) (out : RowOut) (c : ℚ)
    (hc : (records.getD i default).confirmedOrders = some c)
    (hw : ¬((i : ℤ) + nWeeks (records.getD i default) < (records.length : ℤ)))
    (h : rowCompute records i sv = .ok out) :
    ∃ u, (records.getD i default).unconfirmedOrders = some u ∧
      out = ⟨u, sv + (u + c) - deductionsSum (records.getD i default), none⟩ := by
  unfold rowCompute at h
  dsimp only at h
  rw [hc] at h
  dsimp only at h
  rw [if_neg hw] at h
  split at h
  · simp at h
  next u hu =>
    injection h with h2
    exact ⟨u, hu, h2.symm⟩

lemma rowCompute_ok_unconf_none (records : List Row) (i : ℕ) (sv : ℚ) (out : RowOut)
    (h : rowCompute records i sv = .ok out)
    (hn : (records.getD i default).unconfirmedOrders = none) :
    (i : ℤ) + nWeeks (records.getD i default) < (records.length : ℤ) := by
  by_contra hw
  obtain ⟨c, hc⟩ := rowCompute_ok_confirmed records i sv out h
  obtain ⟨u, hu, _⟩ := rowCompute_ok_nonwindow records i sv out c hc hw h
  rw [hn] at hu
  simp at hu

/-- Witness for C3 at September 2024, whose last calendar day (ordinal
739159, September 30) is itself a Monday. -/
theorem claim_C3_witness :
    weekdayOf (get_last_monday_of_month 2024 9) = 0 ∧
    toOrdinal 2024 9 1 ≤ get_last_monday_of_month 2024 9 ∧
    get_last_monday_of_month 2024 9 ≤ lastDayOrdinal 2024 9 ∧
    lastDayOrdinal 2024 9 = toOrdinal 2024 9 (daysInMonth 2024 9) ∧
    lastDayOrdinal 2024 9 - get_last_monday_of_month 2024 9 ≤ 6 ∧
    (weekdayOf (lastDayOrdinal 2024 9) = 0 →
      get_last_monday_of_month 2024 9 = lastDayOrdinal 2024 9) :=
  claim_C3 2024 9 (by norm_num) (by norm_num) (by norm_num)

/-- C4: for every row, the effective MOQ used by the replenishment
computation (`effMOQ`, the value bound by line 51 and used at lines 62-63)
is `max(raw MOQ, 1)`: it is at least 1, equals `max q 1` when the MOQ cell
holds `q`, equals 1 when the MOQ cell holds a value ≤ 0, and equals 1 when
the MOQ column is absent. -/
theorem claim_C4 (r : Row) :
    1 ≤ effMOQ r ∧
    (∀ q : ℚ, r.MOQ = some q → effMOQ r = max q 1) ∧
    (∀ q : ℚ, r.MOQ = some q → q ≤ 0 → effMOQ r = 1) ∧
    (r.MOQ = none → effMOQ r = 1) := by
  refine ⟨le_max_right _ _, ?_, ?_, ?_⟩
  · intro q hq
    simp [effMOQ, hq]
  · intro q hq hq0
    rw [effMOQ, hq]
    simp only [Option.getD_some]
    exact max_eq_right (by linarith)
  · intro h
    simp [effMOQ, h]

/-- Witness for C4 at a row whose MOQ cell holds −3. -/
theorem claim_C4_witness :
    effMOQ { MOQ := some (-3) } = 1 :=
  (claim_C4 { MOQ := some (-3) }).2.2.1 (-3) rfl (by norm_num)

/-- C9: for every row whose planning-horizon cell `n` is absent, the
horizon used by the projection engine (`nWeeks`, the value bound by line
52) is the default 5 — in particular not the 0 that other absent numeric
fields default to. -/
theorem claim_C9 (r : Row) (h : r.n = none) : nWeeks r = 5 ∧ nWeeks r ≠ 0 := by
  have h5 : nWeeks r = 5 := by
    rw [nWeeks, h]
    show pyInt 5 = 5
    rw [pyInt, if_pos (by norm_num)]
    norm_num
  exact ⟨h5, by rw [h5]; norm_num⟩

/-- Witness for C9 at the all-absent row. -/
theorem claim_C9_witness : nWeeks (default : Row) = 5 ∧ nWeeks (default : Row) ≠ 0 :=
  claim_C9 (default : Row) rfl

lemma process_parts_ok_get (groups : List (List Row)) :
    ∀ (res : List (List RowOut)), process_parts groups = .ok res →
      ∀ (p : ℕ) (hp : p < groups.length) (hr : p < res.length),
        process_part (groups.get ⟨p, hp⟩) = .ok (res.get ⟨p, hr⟩) := by
  induction groups with
  | nil =>
    intro res h p hp hr
    simp at hp
  | cons g gs ih =>
    intro res h p hp hr
    unfold process_parts at h
    split at h
    · simp at h
    next outs heq =>
      split at h
      · simp at h
      next rest heq2 =>
        injection h with h2
        subst h2
        cases p with
        | zero => simpa using heq
        | succ q =>
          have := ih rest heq2 q (by simpa using hp) (by simpa using hr)
          simpa using this

/-- C2: balance continuity.  Whenever the projection of one part timeline
succeeds, it produces one output row per input row; row 0 is computed by
the row body with the on-hand quantity of row 0 as starting balance, and
every row i+1 is computed by the row body with the calculated balance of
output row i as starting balance.  Moreover, whenever a whole multi-part
run succeeds, the output for part p is exactly the projection of the
timeline of part p alone, so no row depends on any other part timeline. -/
theorem claim_C2 :
    (∀ (records : List Row) (outs : List RowOut), process_part records = .ok outs →
      outs.length = records.length ∧
      (∀ h0 : 0 < outs.length,
        rowCompute records 0 ((records.getD 0 default).Onhand.getD 0)
          = .ok (outs.get ⟨0, h0⟩)) ∧
      (∀ (i : ℕ) (hi : i + 1 < outs.length),
        rowCompute records (i + 1) ((outs.get ⟨i, Nat.lt_of_succ_lt hi⟩).Calculated_Balance)
          = .ok (outs.get ⟨i + 1, hi⟩))) ∧
    (∀ (groups : List (List Row)) (res : List (List RowOut)),
      process_parts groups = .ok res →
      ∀ (p : ℕ) (hp : p < groups.length) (hr : p < res.length),
        process_part (groups.get ⟨p, hp⟩) = .ok (res.get ⟨p, hr⟩)) := by
  constructor
  · intro records outs h
    unfold process_part at h
    refine ⟨processAux_ok_length records records.length 0 0 outs h, ?_, ?_⟩
    · intro h0
      exact processAux_first records 0 records.length outs h h0
    · intro i hi
      have := processAux_chain records i records.length 0 0 outs h hi
      simpa using this
  · exact process_parts_ok_get

/-- Witness for C2 on a two-row timeline with on-hand 7: row 1 is computed
from the calculated balance 7 of row 0. -/
theorem claim_C2_witness :
    rowCompute c2wit (0 + 1) ((c2witOuts.get ⟨0, by norm_num [c2witOuts]⟩).Calculated_Balance)
      = .ok (c2witOuts.get ⟨0 + 1, by norm_num [c2witOuts]⟩) :=
  (claim_C2.1 c2wit c2witOuts
      (by simp [process_part, processAux, rowCompute, c2wit, c2witOuts, effMOQ, nWeeks,
        pyInt, deductionsSum, forwardSum, targetSum, deductionCells, forwardCells,
        List.range'])).2.2
    0 (by norm_num [c2witOuts])

/-- C7: frame effect for rows without a full forward window.  Whenever the
projection of a timeline succeeds, every output row whose index i has no
full forward window (i + n_weeks ≥ N over the integers) keeps exactly the
unconfirmed-orders value already present in the input cell, and gets no
coverage metric. -/
theorem claim_C7 (records : List Row) (outs : List RowOut)
    (h : process_part records = .ok outs) (i : ℕ) (hi : i < outs.length)
    (hw : ¬((i : ℤ) + nWeeks (records.getD i default) < (records.length : ℤ))) :
    ∃ u, (records.getD i default).unconfirmedOrders = some u ∧
      (outs.get ⟨i, hi⟩).unconf = u ∧
      (outs.get ⟨i, hi⟩).WOS_Check = none ∧
      ∃ c, (records.getD i default).confirmedOrders = some c ∧
        ∃ sv, (outs.get ⟨i, hi⟩).Calculated_Balance
          = sv + (u + c) - deductionsSum (records.getD i default) := by
  unfold process_part at h
  obtain ⟨sv, hsv⟩ := processAux_get_sv records i records.length 0 0 outs h hi
  rw [Nat.zero_add] at hsv
  obtain ⟨c, hc⟩ := rowCompute_ok_confirmed records i sv _ hsv
  obtain ⟨u, hu, hout⟩ := rowCompute_ok_nonwindow records i sv _ c hc hw hsv
  exact ⟨u, hu, by rw [hout], by rw [hout], c, hc, sv, by rw [hout]⟩

/-- Witness for C7 on a single-row timeline (horizon 5, so no window) with
unconfirmed-orders cell 4. -/
theorem claim_C7_witness :
    ∃ u, (c7wit.getD 0 default).unconfirmedOrders = some u ∧
      (([⟨4, 13, none⟩] : List RowOut).get ⟨0, by norm_num⟩).unconf = u ∧
      (([⟨4, 13, none⟩] : List RowOut).get ⟨0, by norm_num⟩).WOS_Check = none ∧
      ∃ c, (c7wit.getD 0 default).confirmedOrders = some c ∧
        ∃ sv, (([⟨4, 13, none⟩] : List RowOut).get ⟨0, by norm_num⟩).Calculated_Balance
          = sv + (u + c) - deductionsSum (c7wit.getD 0 default) :=
  claim_C7 c7wit [⟨4, 13, none⟩]
    (by simp [process_part, processAux, rowCompute, c7wit, effMOQ, nWeeks, pyInt,
      deductionsSum, forwardSum, targetSum, deductionCells, forwardCells, List.range']
        norm_num)
    0 (by norm_num)
    (by norm_num [c7wit, nWeeks, pyInt])

/-- C5: coverage sentinel.  Whenever the projection of a timeline succeeds,
every output row whose index has a full forward window gets a coverage
metric; it is exactly 999 when the forward-window demand sum is 0 (indeed
whenever it is not positive), and it is balance / future_sum * n_weeks
when the forward-window demand sum is positive — the division is only
performed in that guarded branch (line 73). -/
theorem claim_C5 (records : List Row) (outs : List RowOut)
    (h : process_part records = .ok outs) (i : ℕ) (hi : i < outs.length)
    (hw : (i : ℤ) + nWeeks (records.getD i default) < (records.length : ℤ)) :
    (targetSum records i (nWeeks (records.getD i default)) = 0 →
      (outs.get ⟨i, hi⟩).WOS_Check = some 999) ∧
    (¬(0 < targetSum records i (nWeeks (records.getD i default))) →
      (outs.get ⟨i, hi⟩).WOS_Check = some 999) ∧
    (0 < targetSum records i (nWeeks (records.getD i default)) →
      (outs.get ⟨i, hi⟩).WOS_Check =
        some ((outs.get ⟨i, hi⟩).Calculated_Balance
          / targetSum records i (nWeeks (records.getD i default))
          * ((nWeeks (records.getD i default) : ℤ) : ℚ))) := by
  unfold process_part at h
  obtain ⟨sv, hsv⟩ := processAux_get_sv records i records.length 0 0 outs h hi
  rw [Nat.zero_add] at hsv
  obtain ⟨c, hc⟩ := rowCompute_ok_confirmed records i sv _ hsv
  obtain ⟨-, -, hwos⟩ := rowCompute_ok_window records i sv _ c hc hw hsv
  refine ⟨?_, ?_, ?_⟩
  · intro h0
    rw [hwos, h0]
    norm_num
  · intro h0
    rw [hwos, if_neg h0]
  · intro h0
    rw [hwos, if_pos h0]

/-- Witness for C5 on a two-row timeline whose forward window (horizon 1)
has demand sum 0: the coverage metric is the sentinel 999. -/
theorem claim_C5_witness :
    (([⟨-1, 1, some 999⟩, ⟨0, 1, none⟩] : List RowOut).get ⟨0, by norm_num⟩).WOS_Check
      = some 999 :=
  (claim_C5 c5wit [⟨-1, 1, some 999⟩, ⟨0, 1, none⟩]
      (by simp [process_part, processAux, rowCompute, c5wit, effMOQ, nWeeks, pyInt,
        deductionsSum, forwardSum, targetSum, deductionCells, forwardCells, List.range']
          norm_num)
      0 (by norm_num)
      (by norm_num [c5wit, nWeeks, pyInt])).1
    (by norm_num [c5wit, targetSum, nWeeks, pyInt, forwardSum, forwardCells, List.range'])

/-- C1 (amended): replenishment sizing.  For a row with a full forward
window the computed unconfirmed-order quantity is an integer multiple of
the effective MOQ, and when gap ≥ 0 it is the smallest such multiple u
satisfying `start_val + u + confirmed − deductions > target_sum`
*strictly* — i.e. the smallest multiple strictly exceeding the gap.  When
the gap is 0 this still yields exactly one MOQ lot; when the gap is a
positive exact multiple of the MOQ, the code orders one lot more than the
smallest multiple that would satisfy the non-strict inequality ≥ of the
original claim (see the counterexample). -/
theorem claim_C1 (records : List Row) (i : ℕ) (sv : ℚ) (out : RowOut) (c : ℚ)
    (hc : (records.getD i default).confirmedOrders = some c)
    (hw : (i : ℤ) + nWeeks (records.getD i default) < (records.length : ℤ))
    (h : rowCompute records i sv = .ok out)
    (hgap : 0 ≤ targetSum records i (nWeeks (records.getD i default))
      - (sv + c - deductionsSum (records.getD i default))) :
    (∃ k : ℤ, out.unconf = (k : ℚ) * effMOQ (records.getD i default)) ∧
    sv + out.unconf + c - deductionsSum (records.getD i default)
      > targetSum records i (nWeeks (records.getD i default)) ∧
    (∀ m : ℤ, sv + (m : ℚ) * effMOQ (records.getD i default) + c
        - deductionsSum (records.getD i default)
        > targetSum records i (nWeeks (records.getD i default)) →
      out.unconf ≤ (m : ℚ) * effMOQ (records.getD i default)) ∧
    (targetSum records i (nWeeks (records.getD i default))
        - (sv + c - deductionsSum (records.getD i default)) = 0 →
      out.unconf = effMOQ (records.getD i default)) := by
  obtain ⟨hunconf, hbal, hwos⟩ := rowCompute_ok_window records i sv out c hc hw h
  have hmoq : (0 : ℚ) < effMOQ (records.getD i default) :=
    lt_of_lt_of_le one_pos (le_max_right _ _)
  have hkey : ∀ g : ℚ, g / effMOQ (records.getD i default)
      < ((⌊g / effMOQ (records.getD i default)⌋ + 1 : ℤ) : ℚ) := by
    intro g
    have := Int.lt_floor_add_one (g / effMOQ (records.getD i default))
    push_cast
    push_cast at this
    linarith
  refine ⟨⟨_, hunconf⟩, ?_, ?_, ?_⟩
  · rw [hunconf]
    have h1 := hkey (targetSum records i (nWeeks (records.getD i default))
      - (sv + c - deductionsSum (records.getD i default)))
    have h2 := mul_lt_mul_of_pos_right h1 hmoq
    rw [div_mul_cancel₀ _ (ne_of_gt hmoq)] at h2
    linarith
  · intro m hm
    rw [hunconf]
    have hmg : targetSum records i (nWeeks (records.getD i default))
        - (sv + c - deductionsSum (records.getD i default))
        < (m : ℚ) * effMOQ (records.getD i default) := by linarith
    have hdiv : (targetSum records i (nWeeks (records.getD i default))
        - (sv + c - deductionsSum (records.getD i default)))
        / effMOQ (records.getD i default) < (m : ℚ) := (div_lt_iff₀ hmoq).mpr hmg
    have hfloor : ⌊(targetSum records i (nWeeks (records.getD i default))
        - (sv + c - deductionsSum (records.getD i default)))
        / effMOQ (records.getD i default)⌋ < m := Int.floor_lt.mpr hdiv
    have hle : (⌊(targetSum records i (nWeeks (records.getD i default))
        - (sv + c - deductionsSum (records.getD i default)))
        / effMOQ (records.getD i default)⌋ + 1 : ℤ) ≤ m := by omega
    have : ((⌊(targetSum records i (nWeeks (records.getD i default))
        - (sv + c - deductionsSum (records.getD i default)))
        / effMOQ (records.getD i default)⌋ + 1 : ℤ) : ℚ) ≤ (m : ℚ) := by
      exact_mod_cast hle
    exact mul_le_mul_of_nonneg_right this (le_of_lt hmoq)
  · intro h0
    rw [h0] at hunconf
    rw [zero_div, Int.floor_zero] at hunconf
    rw [hunconf]
    norm_num

/-- Counterexample to C1 as stated: on `c1cex` row 0 has a full forward
window (horizon 1), start value 0 (its on-hand), confirmed 0, deductions
0, forward-window demand 10, effective MOQ 10, so gap = 10 ≥ 0 and the
stored unconfirmed quantity is 20 — yet the smaller multiple 1 · 10 = 10
already satisfies `start_val + u + confirmed − deductions ≥ target_sum`,
so the stored quantity is not the smallest such multiple. -/
theorem claim_C1_counterexample :
    process_part c1cex = .ok [⟨20, 20, some 2⟩, ⟨0, 10, none⟩] ∧
    (0 : ℤ) + nWeeks (c1cex.getD 0 default) < (c1cex.length : ℤ) ∧
    (c1cex.getD 0 default).Onhand.getD 0 = 0 ∧
    (c1cex.getD 0 default).confirmedOrders = some 0 ∧
    deductionsSum (c1cex.getD 0 default) = 0 ∧
    effMOQ (c1cex.getD 0 default) = 10 ∧
    targetSum c1cex 0 (nWeeks (c1cex.getD 0 default))
      - (0 + 0 - deductionsSum (c1cex.getD 0 default)) = 10 ∧
    0 + ((1 : ℤ) : ℚ) * effMOQ (c1cex.getD 0 default) + 0
        - deductionsSum (c1cex.getD 0 default)
      ≥ targetSum c1cex 0 (nWeeks (c1cex.getD 0 default)) ∧
    ((1 : ℤ) : ℚ) * effMOQ (c1cex.getD 0 default) < 20 := by
  refine ⟨?_, ?_, ?_, ?_, ?_, ?_, ?_, ?_, ?_⟩ <;>
    simp [process_part, processAux, rowCompute, c1cex, effMOQ, nWeeks, pyInt,
      deductionsSum, forwardSum, targetSum, deductionCells, forwardCells,
      List.range'] <;>
    norm_num

/-- Witness for the amended C1 on `c1wit`: gap 5, MOQ 4, so the code
stores 2 · 4 = 8, and 8 is indeed bounded by the multiple 2 · 4 allowed by
the minimality clause. -/
theorem claim_C1_witness :
    (⟨8, 8, some (8 / 5)⟩ : RowOut).unconf ≤ ((2 : ℤ) : ℚ) * effMOQ (c1wit.getD 0 default) :=
  (claim_C1 c1wit 0 0 ⟨8, 8, some (8 / 5)⟩ 0
      (by norm_num [c1wit])
      (by norm_num [c1wit, nWeeks, pyInt])
      (by simp [rowCompute, c1wit, effMOQ, nWeeks, pyInt, deductionsSum, forwardSum,
        targetSum, deductionCells, forwardCells, List.range']
          norm_num)
      (by norm_num [c1wit, targetSum, nWeeks, pyInt, forwardSum, forwardCells,
        deductionsSum, deductionCells, List.range'])).2.2.1
    2
    (by norm_num [c1wit, targetSum, nWeeks, pyInt, forwardSum, forwardCells,
      deductionsSum, deductionCells, effMOQ, List.range'])

/-- C8: the unconfirmed-order quantity is not clamped to zero.  On
`c8records` row 0 has a full forward window, gap −100 (surplus 100, far
larger than the MOQ 10), the lot count k = ⌊−100/10⌋ + 1 = −9 is ≤ 0, and
the stored unconfirmed-order quantity is the negative value −90. -/
theorem claim_C8 :
    process_part c8records = .ok [⟨-90, 10, some 999⟩, ⟨0, 10, none⟩] ∧
    (0 : ℤ) + nWeeks (c8records.getD 0 default) < (c8records.length : ℤ) ∧
    targetSum c8records 0 (nWeeks (c8records.getD 0 default))
      - ((c8records.getD 0 default).Onhand.getD 0 + 0
        - deductionsSum (c8records.getD 0 default)) = -100 ∧
    (⌊(targetSum c8records 0 (nWeeks (c8records.getD 0 default))
        - ((c8records.getD 0 default).Onhand.getD 0 + 0
          - deductionsSum (c8records.getD 0 default)))
      / effMOQ (c8records.getD 0 default)⌋ + 1 : ℤ) ≤ 0 ∧
    (-90 : ℚ) < 0 := by
  refine ⟨?_, ?_, ?_, ?_, ?_⟩ <;>
    simp [process_part, processAux, rowCompute, c8records, effMOQ, nWeeks, pyInt,
      deductionsSum, forwardSum, targetSum, deductionCells, forwardCells,
      List.range'] <;>
    norm_num

lemma getD_unconfirmed_none (records : List Row)
    (hall : ∀ r ∈ records, r.unconfirmedOrders = none) (i : ℕ) :
    (records.getD i default).unconfirmedOrders = none := by
  by_cases hi : i < records.length
  · rw [List.getD_eq_getElem records default hi]
    exact hall _ (List.getElem_mem hi)
  · rw [List.getD_eq_default records default (by omega)]
    rfl

lemma processAux_error_of_nonwindow (records : List Row)
    (hall : ∀ r ∈ records, r.unconfirmedOrders = none) :
    ∀ (rem i : ℕ) (prev : ℚ),
      (∃ j, i ≤ j ∧ j < i + rem ∧
        ¬((j : ℤ) + nWeeks (records.getD j default) < (records.length : ℤ))) →
      ∃ e, processAux records i prev rem = .error e := by
  intro rem
  induction rem with
  | zero =>
    intro i prev ⟨j, hj1, hj2, _⟩
    omega
  | succ r ih =>
    intro i prev ⟨j, hj1, hj2, hjw⟩
    unfold processAux
    dsimp only
    cases hr : rowCompute records i
        (if i = 0 then (records.getD i default).Onhand.getD 0 else prev) with
    | error e =>
      exact ⟨e, rfl⟩
    | ok out =>
      have hwi := rowCompute_ok_unconf_none records i _ out hr
        (getD_unconfirmed_none records hall i)
      have hji : i < j := by
        rcases Nat.eq_or_lt_of_le hj1 with heq | hlt
        · exact absurd hwi (heq ▸ hjw)
        · exact hlt
      obtain ⟨e, he⟩ := ih (i + 1) out.Calculated_Balance ⟨j, by omega, by omega, hjw⟩
      refine ⟨e, ?_⟩
      dsimp only
      rw [he]

lemma process_parts_error_of_mem (groups : List (List Row)) (g : List Row)
    (hg : g ∈ groups) (hge : ∃ e, process_part g = .error e) :
    ∃ e, process_parts groups = .error e := by
  induction groups with
  | nil => simp at hg
  | cons g0 gs ih =>
    rcases List.mem_cons.mp hg with heq | hmem
    · obtain ⟨e, he⟩ := hge
      subst heq
      refine ⟨e, ?_⟩
      unfold process_parts
      rw [he]
    · unfold process_parts
      cases h0 : process_part g0 with
      | error e => exact ⟨e, rfl⟩
      | ok outs =>
        obtain ⟨e, he⟩ := ih hmem
        refine ⟨e, ?_⟩
        rw [he]

/-- C10: if the sheet has no unconfirmed-orders column (every row of every
part has an absent unconfirmed-orders cell) and some part has a row with
no full forward window, then the whole run aborts: `process_data` returns
`None` — the absent cell is read with `row[...]`, not `row.get(..., 0)`,
so it is not defaulted to 0 on that path. -/
theorem claim_C10 (groups : List (List Row))
    (hall : ∀ g ∈ groups, ∀ r ∈ g, r.unconfirmedOrders = none)
    (hbad : ∃ g ∈ groups, ∃ i, i < g.length ∧
      ¬((i : ℤ) + nWeeks (g.getD i default) < (g.length : ℤ))) :
    process_data groups = none := by
  obtain ⟨g, hg, i, hi, hw⟩ := hbad
  obtain ⟨e, he⟩ := processAux_error_of_nonwindow g (hall g hg) g.length 0 0
    ⟨i, by omega, by omega, hw⟩
  obtain ⟨e2, he2⟩ := process_parts_error_of_mem groups g hg ⟨e, he⟩
  unfold process_data
  rw [he2]
  rfl

/-- Witness for C10 on a one-part, one-row run whose single row (default
horizon 5, timeline length 1) has no full forward window. -/
theorem claim_C10_witness : process_data c10wit = none :=
  claim_C10 c10wit
    (by
      intro g hg r hr
      simp [c10wit] at hg
      subst hg
      simp at hr
      subst hr
      rfl)
    ⟨[{ confirmedOrders := some 0 }], by simp [c10wit], 0, by norm_num,
      by norm_num [nWeeks, pyInt]⟩

/-- C6: snapshot fallback.  For every price lookup, part list and target
dates, if a part has no timeline row dated exactly on a target date, the
record emitted for that part and date is present in the summary report
and has balance 0 and amount 0 — no failure and no interpolation. -/
theorem claim_C6 (priceLookup : String → ℚ) (parts : List (String × List (ℕ × ℚ)))
    (targetDates : List ℕ) (p : String) (g : List (ℕ × ℚ)) (t : ℕ)
    (hmem : (p, g) ∈ parts) (ht : t ∈ targetDates)
    (hnone : ∀ r ∈ g, r.1 ≠ t) :
    mkSummaryRow priceLookup p g t ∈ summaryReport priceLookup parts targetDates ∧
    (mkSummaryRow priceLookup p g t).balance = 0 ∧
    (mkSummaryRow priceLookup p g t).amount = 0 := by
  have hfilter : g.filter (fun r => r.1 == t) = [] := by
    rw [List.filter_eq_nil_iff]
    intro r hr
    simpa using hnone r hr
  have hbal : snapshotBalance g t = 0 := by
    rw [snapshotBalance, hfilter]
  refine ⟨?_, ?_, ?_⟩
  · rw [summaryReport]
    refine List.mem_flatMap.mpr ⟨(p, g), hmem, ?_⟩
    exact List.mem_map.mpr ⟨t, ht, rfl⟩
  · rw [mkSummaryRow]
    exact hbal
  · rw [mkSummaryRow]
    dsimp only
    rw [hbal, zero_mul]

/-- Witness for C6: part A has a row only at ordinal 5, and the snapshot
at ordinal 9 yields balance 0 and amount 0. -/
theorem claim_C6_witness :
    mkSummaryRow (fun _ => 3) "A" [(5, 7)] 9 ∈ summaryReport (fun _ => 3) c6parts [9] ∧
    (mkSummaryRow (fun _ => 3) "A" [(5, 7)] 9).balance = 0 ∧
    (mkSummaryRow (fun _ => 3) "A" [(5, 7)] 9).amount = 0 :=
  claim_C6 (fun _ => 3) c6parts [9] "A" [(5, 7)] 9
    (by simp [c6parts]) (by simp)
    (by
      intro r hr
      simp at hr
      subst hr
      norm_num)
